import Mathlib

/-!
# mstress: a shallow embedding of `mstress.go`

The Go program is embedded as pure Lean functions.

* Go `int` is a 64-bit two's-complement integer: values are `Int`, and every
  addition, subtraction and multiplication of the source is followed by `wrap64`.
* Go `uint64` is a `Nat` reduced modulo `2 ^ 64` after every addition.
* Go `/` and `%` truncate toward zero (`Int.tdiv`, `Int.tmod`) and raise a run-time
  panic on a zero divisor.
* The global random source `r` is replaced by the value that `r.Int()` returns,
  passed explicitly.
* Effects on the file system and on the wait groups are recorded as traces of events;
  the outcome of every system call is supplied by an explicit environment.
-/

namespace Mstress

/-! ## Machine arithmetic -/

/-- Two's-complement reduction of an integer to the range of Go's 64-bit `int`. -/
def wrap64 (x : Int) : Int := (x + 2 ^ 63) % 2 ^ 64 - 2 ^ 63

/-- Conversion `uint64(x)` of a Go `int`. -/
def toUint64 (x : Int) : Nat := (x % 2 ^ 64).toNat

/-- Addition on `uint64`. -/
def addU64 (a b : Nat) : Nat := (a + b) % 2 ^ 64

/-- Run-time panics that the embedded code can raise. -/
inductive Fault where
  | divideByZero
  | indexOutOfRange
  | sliceOutOfRange
deriving DecidableEq, Repr

/-- Go's `a % b` on `int`: panics on `b = 0`, otherwise the truncated remainder. -/
def goMod (a b : Int) : Except Fault Int :=
  if b = 0 then .error .divideByZero else .ok (Int.tmod a b)

/-- Go's `a / b` on `int`: panics on `b = 0`; the quotient of the most negative value
by `-1` is that value itself (two's-complement overflow); otherwise the truncated
quotient. -/
def goDiv (a b : Int) : Except Fault Int :=
  if b = 0 then .error .divideByZero
  else if a = -(2 ^ 63) ∧ b = -1 then .ok a
  else .ok (Int.tdiv a b)

/-! ## `genBufSize` -/

/-- The function `genBufSize(bufMin, bufMax)`; `draw` is the value of `r.Int()`. -/
def genBufSize (draw : Int) (bufMin bufMax : Int) : Except Fault Int :=
  if bufMin < 0 then
    goMod draw bufMax
  else if bufMin = bufMax then
    .ok bufMin
  else
    match goMod draw (wrap64 (bufMax - bufMin)) with
    | .error f => .error f
    | .ok m => .ok (wrap64 (bufMin + m))

/-! ## Tasks, events and environments -/

/-- The struct `writeTask`. The wait-group pointer `wg` is represented by the
`wgDone` event; the byte slice `buf` is represented by its length and capacity. -/
structure writeTask where
  dir : String
  deleteSize : Nat
  bufMin : Int
  bufMax : Int
  minFileSize : Int
  maxFileSize : Int
  clrDir : Bool
  bytesWritten : Nat
  bufLen : Nat
  bufCap : Nat
  flush : Bool
  sleepAfterDelete : Int
  direct : Bool
deriving DecidableEq, Repr

/-- The struct `readTask`; `buf` is represented by its length. -/
structure readTask where
  dir : String
  bufMin : Int
  bufMax : Int
  bufLen : Nat
deriving DecidableEq, Repr

/-- Observable steps of a worker. -/
inductive Event where
  /-- the reclaim walk of `writeOne`: truncate, sync, close and remove every entry -/
  | sweep (dir : String)
  /-- the call `runtime.GC()` -/
  | gc
  /-- the assignment `wt.bytesWritten = 0` -/
  | resetCounter
  /-- the call `time.Sleep` after a reclaim -/
  | sleep (seconds : Int)
  /-- the call `ioutil.TempFile`, with its success -/
  | tempFile (ok : Bool)
  /-- the call `os.Create` or `directio.OpenFile`, with its success -/
  | openFile (direct : Bool) (ok : Bool)
  /-- the `i`-th call `f.Write` of `len` bytes, which returned `n` and an error or not -/
  | write (i : Nat) (len : Int) (n : Int) (err : Bool)
  /-- the call `f.Sync()` -/
  | sync
  /-- a call `f.Close()` -/
  | close
  /-- the call `log.Println(err)` -/
  | logged
  /-- the final report line: size, buffer size and chunk count -/
  | report (size bufSize count : Int)
  /-- the call `os.Stat`, with its success -/
  | stat (ok : Bool)
  /-- the call `os.Open` -/
  | openRead
  /-- one call `f.Read(rt.buf)`, which requests `len(rt.buf)` bytes -/
  | read (len : Nat)
  /-- the start-up message of `writer` -/
  | starting
  /-- the clearing walk of `writer` -/
  | clear
  /-- the call `os.Mkdir` -/
  | mkdir
  /-- the call `wg.Done()` -/
  | wgDone
deriving DecidableEq, Repr

/-- What the outside world answers during one call of `writeOne`. -/
structure WriteEnv where
  /-- value of `r.Int()` inside `genBufSize` -/
  drawBuf : Int
  /-- value of `r.Int()` in the file-size computation -/
  drawSize : Int
  /-- whether `ioutil.TempFile` succeeds -/
  tempOk : Bool
  /-- whether `os.Create` / `directio.OpenFile` succeeds -/
  openOk : Bool
  /-- result `(n, err != nil)` of the `i`-th call of `f.Write` -/
  writeRes : Nat → Int × Bool

/-- What the outside world answers during one call of `readOne`. -/
structure ReadEnv where
  /-- value of `r.Int()` inside `genBufSize` -/
  draw : Int
  /-- `fi.Size()` when `os.Stat` succeeds, `none` when it fails -/
  size : Option Int

/-- How a call ends: normal return, run-time panic, or `log.Fatal`. -/
inductive Status where
  | returned
  | panicked (f : Fault)
  | fatal
deriving DecidableEq, Repr

/-- Result of one call of `writeOne`: how it ended, the task afterwards, what it did. -/
structure Outcome where
  status : Status
  wt : writeTask
  trace : List Event
deriving DecidableEq, Repr

/-! ## `writeTask.writeOne` -/

/-- Lines 55-80 of `writeOne`: the reclaim check. Returns the task after it and the
events it produced. -/
def reclaim (wt : writeTask) : writeTask × List Event :=
  if wt.deleteSize > 0 ∧ wt.bytesWritten > wt.deleteSize then
    ({ wt with bytesWritten := 0 },
      [.sweep wt.dir, .gc, .resetCounter] ++
        (if wt.sleepAfterDelete > 0 then [.sleep wt.sleepAfterDelete] else []))
  else
    (wt, [])

/-- Lines 90-97 of `writeOne`: the file size, computed in line in the source.
`draw` is the value of `r.Int()`. -/
def genFileSize (draw : Int) (minFileSize maxFileSize : Int) : Except Fault Int :=
  if minFileSize < 0 then
    goMod draw maxFileSize
  else if minFileSize = maxFileSize then
    .ok minFileSize
  else
    match goMod draw (wrap64 (maxFileSize - minFileSize)) with
    | .error f => .error f
    | .ok m => .ok (wrap64 (minFileSize + m))

/-- How the write loop ends. -/
inductive LoopEnd where
  | completed
  | aborted
  | panicked (f : Fault)
deriving DecidableEq, Repr

/-- Lines 113-121 of `writeOne`: the loop `for i := 0; i < count; i++`, with
`remaining = count - i` iterations left. Returns how the loop ended, the value of
`wt.bytesWritten` and the events. -/
def writeLoop (env : WriteEnv) (bufSize : Int) (bufLen bufCap : Nat) :
    Nat → Nat → Nat → LoopEnd × Nat × List Event
  | 0, _, bw => (.completed, bw, [])
  | remaining + 1, i, bw =>
    if bufLen = 0 then (.panicked .indexOutOfRange, bw, [])
    else if bufSize < 0 ∨ (bufCap : Int) < bufSize then (.panicked .sliceOutOfRange, bw, [])
    else
      let res := env.writeRes i
      if res.1 ≠ bufSize ∨ res.2 = true then
        (.aborted, bw, [.write i bufSize res.1 res.2, .logged])
      else
        let rest := writeLoop env bufSize bufLen bufCap remaining (i + 1)
          (addU64 bw (toUint64 bufSize))
        (rest.1, rest.2.1, .write i bufSize res.1 res.2 :: rest.2.2)

/-- The method `writeTask.writeOne`. -/
def writeOne (wt : writeTask) (env : WriteEnv) : Outcome :=
  let wt1 := (reclaim wt).1
  let tr1 := (reclaim wt).2
  match genBufSize env.drawBuf wt1.bufMin wt1.bufMax with
  | .error f => ⟨.panicked f, wt1, tr1⟩
  | .ok bufSize =>
    if env.tempOk = false then ⟨.fatal, wt1, tr1 ++ [.tempFile false]⟩
    else
      match genFileSize env.drawSize wt1.minFileSize wt1.maxFileSize with
      | .error f => ⟨.panicked f, wt1, tr1 ++ [.tempFile true]⟩
      | .ok size =>
        match goDiv size bufSize with
        | .error f => ⟨.panicked f, wt1, tr1 ++ [.tempFile true]⟩
        | .ok count =>
          if env.openOk = false then
            ⟨.fatal, wt1, tr1 ++ [.tempFile true, .openFile wt1.direct false]⟩
          else
            let loop := writeLoop env bufSize wt1.bufLen wt1.bufCap count.toNat 0
              wt1.bytesWritten
            let wt2 := { wt1 with bytesWritten := loop.2.1 }
            let tr2 := tr1 ++ [.tempFile true, .openFile wt1.direct true] ++ loop.2.2
            match loop.1 with
            | .panicked f => ⟨.panicked f, wt2, tr2 ++ [.close]⟩
            | .aborted => ⟨.returned, wt2, tr2 ++ [.close]⟩
            | .completed =>
              ⟨.returned, wt2,
                tr2 ++ (if wt1.flush then [.sync] else []) ++
                  [.close, .report size bufSize count, .close]⟩

/-! ## `writeTask.writer` -/

/-- How a worker stands after a bounded number of loop passes. -/
inductive WorkerEnd where
  /-- the loop was left and `wg.Done()` was called -/
  | done
  /-- the process was ended by a panic or by `log.Fatal` -/
  | crashed
  /-- the loop is still running after the passes that were granted -/
  | running
deriving DecidableEq, Repr

/-- State of a worker after a bounded run: how it stands, how many passes of the
loop body it has made, and its events. -/
structure Run where
  ending : WorkerEnd
  passes : Nat
  trace : List Event
deriving DecidableEq, Repr

/-- Lines 149-158 of `writer`: the loop `for { wt.writeOne(); count++; if count == iter
{ break } }` followed by `wt.wg.Done()`, run for at most `fuel` passes. `count` is the
Go counter, `passes` the number of calls of `writeOne` made so far, `envs k` the
environment of the `k`-th call. -/
def writerLoop (envs : Nat → WriteEnv) (iter : Int) :
    Nat → Int → Nat → writeTask → Run
  | 0, _, passes, _ => ⟨.running, passes, []⟩
  | fuel + 1, count, passes, wt =>
    let out := writeOne wt (envs passes)
    match out.status with
    | .returned =>
      if wrap64 (count + 1) = iter then
        ⟨.done, passes + 1, out.trace ++ [.wgDone]⟩
      else
        let rest := writerLoop envs iter fuel (wrap64 (count + 1)) (passes + 1) out.wt
        ⟨rest.ending, rest.passes, out.trace ++ rest.trace⟩
    | _ => ⟨.crashed, passes + 1, out.trace⟩

/-- The method `writeTask.writer(iter)`, run for at most `fuel` passes of its loop. -/
def writer (wt : writeTask) (iter : Int) (envs : Nat → WriteEnv) (fuel : Nat) : Run :=
  let r := writerLoop envs iter fuel 0 0 wt
  ⟨r.ending, r.passes,
    [.starting] ++ (if wt.clrDir then [.clear] else []) ++ [.mkdir] ++ r.trace⟩

/-! ## `readTask.readOne` and `readTask.reader` -/

/-- Lines 178-180 of `readOne`: `count` calls of `f.Read(rt.buf)`. -/
def readLoop (bufLen : Nat) : Nat → List Event
  | 0 => []
  | remaining + 1 => .read bufLen :: readLoop bufLen remaining

/-- The method `readTask.readOne(path)`. -/
def readOne (rt : readTask) (env : ReadEnv) : Status × List Event :=
  match genBufSize env.draw rt.bufMin rt.bufMax with
  | .error f => (.panicked f, [])
  | .ok bufSize =>
    match env.size with
    | none => (.returned, [.stat false])
    | some size =>
      match goDiv size bufSize with
      | .error f => (.panicked f, [.stat true])
      | .ok count =>
        (.returned,
          [.stat true, .openRead] ++ readLoop rt.bufLen count.toNat ++
            [.close, .report size bufSize count, .close])

/-- One `filepath.Walk` of `reader`: `readOne` on every visited path other than the
directory itself, in order. -/
def walk (rt : readTask) : List ReadEnv → Status × List Event
  | [] => (.returned, [])
  | e :: es =>
    match readOne rt e with
    | (.returned, tr) => ((walk rt es).1, tr ++ (walk rt es).2)
    | (s, tr) => (s, tr)

/-- Lines 190-203 of `reader`: the loop of directory walks followed by `rt.wg.Done()`,
run for at most `fuel` passes; `dirs k` lists the entries met by the `k`-th walk. -/
def readerLoop (rt : readTask) (dirs : Nat → List ReadEnv) (iter : Int) :
    Nat → Int → Nat → Run
  | 0, _, passes => ⟨.running, passes, []⟩
  | fuel + 1, count, passes =>
    match walk rt (dirs passes) with
    | (.returned, tr) =>
      if wrap64 (count + 1) = iter then
        ⟨.done, passes + 1, tr ++ [.wgDone]⟩
      else
        let rest := readerLoop rt dirs iter fuel (wrap64 (count + 1)) (passes + 1)
        ⟨rest.ending, rest.passes, tr ++ rest.trace⟩
    | (_, tr) => ⟨.crashed, passes + 1, tr⟩

/-- The method `readTask.reader(iter)`, run for at most `fuel` passes of its loop. -/
def reader (rt : readTask) (iter : Int) (dirs : Nat → List ReadEnv) (fuel : Nat) : Run :=
  readerLoop rt dirs iter fuel 0 0

/-! ## `main` -/

/-- The parsed command line: the twelve flags and the positional arguments. -/
structure Flags where
  ds : Int
  minfs : Int
  maxfs : Int
  minbs : Int
  maxbs : Int
  clr : Bool
  read : Bool
  write : Bool
  flush : Bool
  sleep : Int
  iter : Int
  direct : Bool
  args : List String
deriving DecidableEq, Repr

/-- Steps of the main goroutine from the spawn loop on. -/
inductive Action where
  /-- the call `wgw.Add(1)` -/
  | addWriter
  /-- the statement `go wt.writer(iter)` -/
  | spawnWriter (wt : writeTask) (iter : Int)
  /-- the call `wgr.Add(1)` -/
  | addReader
  /-- the statement `go rt.reader(iter)` -/
  | spawnReader (rt : readTask) (iter : Int)
  /-- the call `wgr.Wait()` -/
  | waitReaders
  /-- the call `wgw.Wait()` -/
  | waitWriters
deriving DecidableEq, Repr

/-- How `main` proceeds: `os.Exit(code)` after printing a message, `log.Fatal` with a
message, or the sequence of steps it takes once the configuration is accepted. -/
inductive MainEnd where
  | exited (code : Nat) (msg : String)
  | fatal (msg : String)
  | run (acts : List Action)
deriving DecidableEq, Repr

/-- Lines 255-276 of `main`: the loop over the target directories. `slack` is the
capacity beyond the length of the block returned by `directio.AlignedBlock`. -/
def spawn (f : Flags) (minFileSize maxFileSize : Int) (deleteSize : Nat) (slack : Nat) :
    List String → List Action
  | [] => []
  | dir :: rest =>
    (if f.write then
      [.addWriter,
       .spawnWriter
        ⟨dir, deleteSize, f.minbs, f.maxbs, minFileSize, maxFileSize, f.clr, 0,
          f.maxbs.toNat, (if f.direct then f.maxbs.toNat + slack else f.maxbs.toNat),
          f.flush, f.sleep, f.direct⟩ f.iter]
     else []) ++
    (if f.read then
      [.addReader, .spawnReader ⟨dir, f.minbs, f.maxbs, f.maxbs.toNat⟩ f.iter]
     else []) ++
    spawn f minFileSize maxFileSize deleteSize slack rest

/-- The function `main`, after `flag.Parse()`. -/
def main (f : Flags) (slack : Nat) : MainEnd :=
  if f.read = false ∧ f.write = false then
    .exited 1 "Need --read or --write\n"
  else if f.args.length = 0 then
    .exited 1 "Need target dir\n"
  else if f.maxbs ≤ 0 then
    .exited 1 "maxbs must be greater 0\n"
  else
    let minFileSize := wrap64 (f.minfs * (1024 * 1024))
    let maxFileSize := wrap64 (f.maxfs * (1024 * 1024))
    if maxFileSize ≤ 0 ∨ maxFileSize < f.maxbs then
      .exited 1 "maxFileSize must be greater 0 and greater than maxbs\n"
    else if f.direct = true ∧ f.maxbs ≠ f.minbs then
      .fatal "block sizes must be the same for direct"
    else
      let deleteSize := toUint64 (wrap64 (wrap64 (wrap64 (f.ds * 1024) * 1024) * 1024))
      .run (spawn f minFileSize maxFileSize deleteSize slack f.args ++
        [.waitReaders, .waitWriters])

/-! ## Observations on traces -/

/-- The `f.Write` calls of a trace, in order. -/
def writeCalls : List Event → List Event
  | [] => []
  | .write i len n err :: rest => .write i len n err :: writeCalls rest
  | _ :: rest => writeCalls rest

/-- The bytes of a trace that `writeOne` credits to `wt.bytesWritten`: the lengths of
the `f.Write` calls that returned the full length and no error. -/
def creditedBytes : List Event → Nat
  | [] => 0
  | .write _ len n err :: rest =>
    (if n = len ∧ err = false then len.toNat else 0) + creditedBytes rest
  | _ :: rest => creditedBytes rest

/-- The bytes that the `f.Write` calls of a trace returned as written. -/
def writtenBytes : List Event → Nat
  | [] => 0
  | .write _ _ n _ :: rest => n.toNat + writtenBytes rest
  | _ :: rest => writtenBytes rest

/-- The `f.Read` calls of a trace, in order. -/
def readCalls : List Event → List Event
  | [] => []
  | .read len :: rest => .read len :: readCalls rest
  | _ :: rest => readCalls rest

/-! ## Example inputs -/

/-- An environment in which every system call succeeds, every write returns `n` bytes
and both draws are `draw`. -/
def allOk (draw n : Int) : WriteEnv := ⟨draw, draw, true, true, fun _ => (n, false)⟩

/-- The write task that `main` builds for `-write -minfs 10 -maxfs 10 -minbs 1048576
-maxbs 1048576 d`. -/
def tenMegTask : writeTask :=
  ⟨"d", 0, 1048576, 1048576, 10485760, 10485760, false, 0, 1048576, 1048576, false, 0,
    false⟩

/-- An environment in which the file is created and opened, the first two writes
return the full 1048576 bytes, and the third write returns 524288 bytes with an error
(as a full disk does). -/
def shortWriteEnv : WriteEnv :=
  ⟨0, 0, true, true, fun i => if i < 2 then (1048576, false) else (524288, true)⟩

/-- The write task of `-write -ds 1 -minfs 1 -maxfs 1 -minbs 524288 -maxbs 524288 d`
after 1025 files of 1 MiB: the counter stands above the threshold of 1 GiB. -/
def reclaimTask : writeTask :=
  ⟨"d", 1073741824, 524288, 524288, 1048576, 1048576, false, 1074790400, 524288, 524288,
    false, 0, false⟩

/-- The wait-group joins among the steps of the main goroutine, in order. -/
def waits : List Action → List Action
  | [] => []
  | .waitReaders :: rest => .waitReaders :: waits rest
  | .waitWriters :: rest => .waitWriters :: waits rest
  | _ :: rest => waits rest

/-- The command line `-read -write d`, every other flag at its default. -/
def readWriteFlags : Flags :=
  ⟨0, 1, 1024, 8192, 8192, false, true, true, false, 0, -1, false, ["d"]⟩

/-- The steps that `main` takes for `-read -write d`. -/
def readWriteActs : List Action :=
  [.addWriter,
   .spawnWriter ⟨"d", 0, 8192, 8192, 1048576, 1073741824, false, 0, 8192, 8192, false, 0,
      false⟩ (-1),
   .addReader, .spawnReader ⟨"d", 8192, 8192, 8192⟩ (-1),
   .waitReaders, .waitWriters]

/-- The command line `-write -maxfs 1 -minbs 1048576 -maxbs 1048576 d`: the maximal
file size in bytes equals the maximal buffer size. -/
def equalSizeFlags : Flags :=
  ⟨0, 1, 1, 1048576, 1048576, false, false, true, false, 0, -1, false, ["d"]⟩

/-- The command line `-direct -minbs 4096 -maxbs 8192 d`, without `-read` and without
`-write`. -/
def directNoModeFlags : Flags :=
  ⟨0, 1, 1024, 4096, 8192, false, false, false, false, 0, -1, true, ["d"]⟩

/-- The command line `-write -direct -minbs 4096 -maxbs 8192 d`. -/
def directMismatchFlags : Flags :=
  ⟨0, 1, 1024, 4096, 8192, false, false, true, false, 0, -1, true, ["d"]⟩

/-- The command line `-write -minbs -1 -maxbs 8192 d`. -/
def randomBufFlags : Flags :=
  ⟨0, 1, 1024, -1, 8192, false, false, true, false, 0, -1, false, ["d"]⟩

/-- The write task that `main` builds for `-write -minbs -1 -maxbs 8192 d`. -/
def randomBufTask : writeTask :=
  ⟨"d", 0, -1, 8192, 1048576, 1073741824, false, 0, 8192, 8192, false, 0, false⟩

/-- The command line `-write -minbs 10000 -maxbs 8192 d`. -/
def invertedBufFlags : Flags :=
  ⟨0, 1, 1024, 10000, 8192, false, false, true, false, 0, -1, false, ["d"]⟩

/-- The write task that `main` builds for `-write -minbs 10000 -maxbs 8192 d`. -/
def invertedBufTask : writeTask :=
  ⟨"d", 0, 10000, 8192, 1048576, 1073741824, false, 0, 8192, 8192, false, 0, false⟩

/-- The read task that `main` builds for `-read -minbs 1024 -maxbs 4096 d`. -/
def rangeReadTask : readTask := ⟨"d", 1024, 4096, 4096⟩

/-- The read task that `main` builds for `-read -minbs -1 -maxbs 8192 d`. -/
def randomReadTask : readTask := ⟨"d", -1, 8192, 8192⟩

end Mstress

namespace Mstress

theorem wrap64_id (x : Int) (h1 : -(2 ^ 63) ≤ x) (h2 : x < 2 ^ 63) : wrap64 x = x := by
  unfold wrap64
  omega

/-- C1: for `bufMax > 0`, `bufMin < bufMax` and a non-negative draw, `genBufSize`
returns normally a value `v` with `v < bufMax`, with `0 ≤ v` when `bufMin < 0` and
`bufMin ≤ v` when `0 ≤ bufMin`. -/
theorem genBufSize_in_range (draw bufMin bufMax : Int)
    (hmax : 0 < bufMax) (hmax64 : bufMax < 2 ^ 63) (hlt : bufMin < bufMax)
    (hdraw : 0 ≤ draw) :
    ∃ v, genBufSize draw bufMin bufMax = .ok v ∧ v < bufMax ∧
      (bufMin < 0 → 0 ≤ v) ∧ (0 ≤ bufMin → bufMin ≤ v) := by
  unfold genBufSize goMod
  by_cases hneg : bufMin < 0
  · have hne : bufMax ≠ 0 := by omega
    refine ⟨Int.tmod draw bufMax, ?_, ?_, ?_, ?_⟩
    · simp [hneg, hne]
    · exact Int.tmod_lt_of_pos draw hmax
    · intro _; exact Int.tmod_nonneg bufMax hdraw
    · intro h; omega
  · have hd : wrap64 (bufMax - bufMin) = bufMax - bufMin := by
      apply wrap64_id <;> omega
    have hdpos : 0 < bufMax - bufMin := by omega
    have hm1 : Int.tmod draw (bufMax - bufMin) < bufMax - bufMin :=
      Int.tmod_lt_of_pos draw hdpos
    have hm0 : 0 ≤ Int.tmod draw (bufMax - bufMin) := Int.tmod_nonneg _ hdraw
    have hw : wrap64 (bufMin + Int.tmod draw (bufMax - bufMin))
        = bufMin + Int.tmod draw (bufMax - bufMin) := by
      apply wrap64_id <;> omega
    refine ⟨bufMin + Int.tmod draw (bufMax - bufMin), ?_, ?_, ?_, ?_⟩
    · have hne : bufMin ≠ bufMax := by omega
      have hne2 : bufMax - bufMin ≠ 0 := by omega
      simp [hneg, hne, hd, hne2, hw]
    · omega
    · intro h; omega
    · intro _; omega

theorem genBufSize_in_range_witness :
    ((0 : Int) < 4096 ∧ (1024 : Int) < 4096 ∧ (0 : Int) ≤ 123456789) ∧
    (∃ v, genBufSize 123456789 1024 4096 = .ok v ∧ v < 4096 ∧
      ((1024 : Int) < 0 → 0 ≤ v) ∧ ((0 : Int) ≤ 1024 → 1024 ≤ v)) ∧
    genBufSize 123456789 1024 4096 = .ok 3349 ∧
    genBufSize 123456789 (-1) 4096 = .ok 3349 :=
  ⟨by decide,
    genBufSize_in_range 123456789 1024 4096 (by decide) (by decide) (by decide) (by decide),
    rfl, rfl⟩

/-- C2: for every pair with `min = max` that the program passes to `genBufSize`, the
result is `min` exactly, whatever the draw is. The program only calls `genBufSize` on
the `bufMin`, `bufMax` of a task, and `main` builds tasks only with `bufMax > 0`
(`spawned_bufMax_pos`); the statement holds for every `min = max ≥ 0`. -/
theorem genBufSize_fixed (draw m : Int) (hm : 0 ≤ m) : genBufSize draw m m = .ok m := by
  unfold genBufSize
  have h : ¬ m < 0 := by omega
  simp [h]

theorem genBufSize_fixed_witness :
    (0 : Int) ≤ 8192 ∧ genBufSize 12345 8192 8192 = .ok 8192 :=
  ⟨by decide, genBufSize_fixed 12345 8192 (by decide)⟩

/-! ### The write loop -/

theorem reclaim_fields (wt : writeTask) :
    (reclaim wt).1.bufMin = wt.bufMin ∧ (reclaim wt).1.bufMax = wt.bufMax ∧
    (reclaim wt).1.minFileSize = wt.minFileSize ∧
    (reclaim wt).1.maxFileSize = wt.maxFileSize ∧
    (reclaim wt).1.bufLen = wt.bufLen ∧ (reclaim wt).1.bufCap = wt.bufCap ∧
    (reclaim wt).1.flush = wt.flush ∧ (reclaim wt).1.direct = wt.direct := by
  unfold reclaim
  split <;> simp

/-- When every write returns the full length without error, the loop completes after
`k` writes of `B` bytes each and has added `k * B` to the counter. -/
theorem writeLoop_all_ok (env : WriteEnv) (B : Int) (bufLen bufCap : Nat)
    (hB : 0 ≤ B) (hlen : 0 < bufLen) (hcap : B ≤ bufCap)
    (hw : ∀ i, env.writeRes i = (B, false)) :
    ∀ k i bw, bw < 2 ^ 64 → writeLoop env B bufLen bufCap k i bw =
      (.completed, (bw + k * B.toNat) % 2 ^ 64,
        (List.range' i k).map (fun j => Event.write j B B false)) := by
  intro k
  induction k with
  | zero =>
    intro i bw hbw
    simp [writeLoop]
    omega
  | succ k ih =>
    intro i bw hbw
    have h1 : bufLen ≠ 0 := by omega
    have h2 : ¬ (B < 0 ∨ (bufCap : Int) < B) := by omega
    simp only [writeLoop, h1, h2, hw, if_false]
    simp only [ne_eq, not_true_eq_false, Bool.false_eq_true, or_self, if_false]
    have hlt : addU64 bw (toUint64 B) < 2 ^ 64 := by
      unfold addU64
      omega
    rw [ih _ _ hlt]
    simp only [List.range'_succ, List.map_cons]
    refine Prod.ext ?_ (Prod.ext ?_ ?_)
    · rfl
    · simp only [addU64, toUint64]
      have e : ((B % 2 ^ 64).toNat : Int) = B % 2 ^ 64 := by omega
      generalize hx : (B % 2 ^ 64).toNat = x at *
      generalize hy : B.toNat = y
      have hxy : x = y % 2 ^ 64 := by omega
      subst hxy
      have hk : (k + 1) * y = k * y + y := by ring
      rw [hk]
      generalize k * y = z
      omega
    · rfl

theorem writeCalls_append (a b : List Event) :
    writeCalls (a ++ b) = writeCalls a ++ writeCalls b := by
  induction a with
  | nil => rfl
  | cons e t ih => cases e <;> simp [writeCalls, ih]

theorem writeCalls_reclaim (wt : writeTask) : writeCalls (reclaim wt).2 = [] := by
  unfold reclaim
  split
  · split <;> rfl
  · rfl

theorem writeCalls_map_write (B : Int) (l : List Nat) :
    writeCalls (l.map (fun j => Event.write j B B false)) =
      l.map (fun j => Event.write j B B false) := by
  induction l with
  | nil => rfl
  | cons a t ih => simp [writeCalls, ih]

theorem goDiv_floor (S B : Int) (hS : 0 ≤ S) (hB : 0 < B) : goDiv S B = .ok (S / B) := by
  unfold goDiv
  have h1 : B ≠ 0 := by omega
  have h2 : ¬ (S = -(2 ^ 63) ∧ B = -1) := by omega
  simp only [h1, h2, if_false]
  rw [Int.tdiv_eq_ediv hS (by omega)]

theorem writtenBytes_append (a b : List Event) :
    writtenBytes (a ++ b) = writtenBytes a + writtenBytes b := by
  induction a with
  | nil => simp [writtenBytes]
  | cons e t ih => cases e <;> simp [writtenBytes, ih, Nat.add_assoc]

theorem writtenBytes_reclaim (wt : writeTask) : writtenBytes (reclaim wt).2 = 0 := by
  unfold reclaim
  split
  · split <;> rfl
  · rfl

theorem writtenBytes_map_write (B : Int) (l : List Nat) :
    writtenBytes (l.map (fun j => Event.write j B B false)) = l.length * B.toNat := by
  induction l with
  | nil => simp [writtenBytes]
  | cons a t ih =>
    simp only [List.map_cons, writtenBytes, ih, List.length_cons]
    ring

/-- The whole result of `writeOne` when the file is created and opened and every
write returns the full length without error. -/
theorem writeOne_all_ok (wt : writeTask) (env : WriteEnv) (B S : Int)
    (hB : genBufSize env.drawBuf wt.bufMin wt.bufMax = .ok B)
    (hS : genFileSize env.drawSize wt.minFileSize wt.maxFileSize = .ok S)
    (hBpos : 0 < B) (hS0 : 0 ≤ S)
    (hlen : 0 < wt.bufLen) (hcap : B ≤ wt.bufCap)
    (htemp : env.tempOk = true) (hopen : env.openOk = true)
    (hw : ∀ i, env.writeRes i = (B, false))
    (hbw : wt.bytesWritten < 2 ^ 64) :
    writeOne wt env =
      ⟨.returned,
        { (reclaim wt).1 with
          bytesWritten := ((reclaim wt).1.bytesWritten + (S / B).toNat * B.toNat) % 2 ^ 64 },
        (reclaim wt).2 ++ [.tempFile true, .openFile (reclaim wt).1.direct true] ++
          (List.range' 0 (S / B).toNat).map (fun j => Event.write j B B false) ++
          (if (reclaim wt).1.flush then [.sync] else []) ++
          [.close, .report S B (S / B), .close]⟩ := by
  obtain ⟨f1, f2, f3, f4, f5, f6, _, _⟩ := reclaim_fields wt
  have hbase : (reclaim wt).1.bytesWritten < 2 ^ 64 := by
    unfold reclaim
    split
    · simp
    · exact hbw
  have hloop := writeLoop_all_ok env B (reclaim wt).1.bufLen (reclaim wt).1.bufCap
    (by omega) (by rw [f5]; exact hlen) (by rw [f6]; exact hcap) hw (S / B).toNat 0
    (reclaim wt).1.bytesWritten hbase
  unfold writeOne
  simp only [f1, f2, f3, f4, hB, hS, htemp, hopen, goDiv_floor S B hS0 hBpos, hloop]
  simp

/-- C3 (as stated) fails. On the task of `-write -ds 1 -minfs 1 -maxfs 1 -minbs 524288
-maxbs 524288 d` whose counter stands above the threshold, `B = 524288 > 0`,
`S = 1048576`, every write succeeds and the two writes of `B` bytes are issued, yet
`bytesWritten` does not grow by `1048576`: the reclaim check of the same call resets it
first, and it falls from `1074790400` to `1048576`. On the task of `-write -minbs 10000
-maxbs 8192 d`, `B = 10005 > 0`, `S = 1048581` and no write fails, yet none of the
`floor(S/B) = 104` writes is issued: `B` exceeds the buffer and the call panics. -/
theorem writeOne_full_writes_fails :
    (genBufSize 0 reclaimTask.bufMin reclaimTask.bufMax = .ok 524288 ∧
      genFileSize 0 reclaimTask.minFileSize reclaimTask.maxFileSize = .ok 1048576 ∧
      (writeOne reclaimTask (allOk 0 524288)).status = .returned ∧
      (writeCalls (writeOne reclaimTask (allOk 0 524288)).trace).length = 2 ∧
      reclaimTask.bytesWritten = 1074790400 ∧
      (writeOne reclaimTask (allOk 0 524288)).wt.bytesWritten = 1048576 ∧
      (writeOne reclaimTask (allOk 0 524288)).wt.bytesWritten ≠
        reclaimTask.bytesWritten + 1048576) ∧
    (genBufSize 5 invertedBufTask.bufMin invertedBufTask.bufMax = .ok 10005 ∧
      genFileSize 5 invertedBufTask.minFileSize invertedBufTask.maxFileSize =
        .ok 1048581 ∧
      (1048581 / 10005 : Int) = 104 ∧
      (writeOne invertedBufTask (allOk 5 10005)).status = .panicked .sliceOutOfRange ∧
      writeCalls (writeOne invertedBufTask (allOk 5 10005)).trace = []) := by
  refine ⟨⟨rfl, rfl, by decide, by decide, by decide, by decide, by decide⟩,
    ⟨rfl, rfl, by decide, by decide, by decide⟩⟩

/-- C3 (amended): when the sampled buffer size `B > 0` fits the task's non-empty write
buffer (`B ≤ cap(wt.buf)`), the sampled file size is `S ≥ 0`, the file is created and
opened and every write succeeds, one call of `writeOne` returns after exactly
`floor(S/B)` writes, numbered `0, 1, ...`, each of `B` bytes and each returning `B`;
the report carries the count `floor(S/B)`; the bytes written total
`floor(S/B) * B ≤ S` with a remainder `< B` left unwritten; and `bytesWritten` ends as
its value after the reclaim check of that call (`0` when the sweep ran, the old value
otherwise) plus `floor(S/B) * B`, in `uint64` arithmetic, hence exactly that sum
whenever the sum fits. -/
theorem writeOne_full_writes (wt : writeTask) (env : WriteEnv) (B S : Int)
    (hB : genBufSize env.drawBuf wt.bufMin wt.bufMax = .ok B)
    (hS : genFileSize env.drawSize wt.minFileSize wt.maxFileSize = .ok S)
    (hBpos : 0 < B) (hS0 : 0 ≤ S)
    (hlen : 0 < wt.bufLen) (hcap : B ≤ wt.bufCap)
    (htemp : env.tempOk = true) (hopen : env.openOk = true)
    (hw : ∀ i, env.writeRes i = (B, false))
    (hbw : wt.bytesWritten < 2 ^ 64) :
    (writeOne wt env).status = .returned ∧
    writeCalls (writeOne wt env).trace =
      (List.range (S / B).toNat).map (fun i => Event.write i B B false) ∧
    (writeCalls (writeOne wt env).trace).length = (S / B).toNat ∧
    Event.report S B (S / B) ∈ (writeOne wt env).trace ∧
    writtenBytes (writeOne wt env).trace = (S / B * B).toNat ∧
    S / B * B ≤ S ∧ S - S / B * B < B ∧
    (writeOne wt env).wt.bytesWritten =
      ((reclaim wt).1.bytesWritten + (S / B * B).toNat) % 2 ^ 64 ∧
    ((reclaim wt).1.bytesWritten + (S / B * B).toNat < 2 ^ 64 →
      (writeOne wt env).wt.bytesWritten =
        (reclaim wt).1.bytesWritten + (S / B * B).toNat) ∧
    (reclaim wt).1.bytesWritten =
      (if 0 < wt.deleteSize ∧ wt.deleteSize < wt.bytesWritten then 0
        else wt.bytesWritten) := by
  have hq0 : 0 ≤ S / B := Int.ediv_nonneg hS0 (by omega)
  have hbase : (reclaim wt).1.bytesWritten =
      (if 0 < wt.deleteSize ∧ wt.deleteSize < wt.bytesWritten then 0
        else wt.bytesWritten) := by
    unfold reclaim
    by_cases hf : wt.deleteSize > 0 ∧ wt.bytesWritten > wt.deleteSize
    · have hf2 : 0 < wt.deleteSize ∧ wt.deleteSize < wt.bytesWritten := hf
      rw [if_pos hf, if_pos hf2]
    · have hf2 : ¬ (0 < wt.deleteSize ∧ wt.deleteSize < wt.bytesWritten) := hf
      rw [if_neg hf, if_neg hf2]
  have hout := writeOne_all_ok wt env B S hB hS hBpos hS0 hlen hcap htemp hopen hw hbw
  have htot : (S / B).toNat * B.toNat = (S / B * B).toNat := by
    have h1 : ((S / B).toNat : Int) = S / B := Int.toNat_of_nonneg hq0
    have h2 : (B.toNat : Int) = B := Int.toNat_of_nonneg (by omega)
    have h3 : 0 ≤ S / B * B := Int.mul_nonneg hq0 (by omega)
    have h4 : ((S / B * B).toNat : Int) = S / B * B := Int.toNat_of_nonneg h3
    have : (((S / B).toNat * B.toNat : Nat) : Int) = ((S / B * B).toNat : Int) := by
      push_cast
      rw [h1, h2, h4]
    exact_mod_cast this
  have hcalls : writeCalls (writeOne wt env).trace =
      (List.range (S / B).toNat).map (fun i => Event.write i B B false) := by
    rw [hout]
    simp only [writeCalls_append, writeCalls_reclaim, writeCalls_map_write,
      List.range_eq_range']
    split <;> simp [writeCalls]
  have hmod : S / B * B ≤ S ∧ S - S / B * B < B := by
    have h1 := Int.emod_add_ediv S B
    have h2 := Int.emod_nonneg S (show B ≠ 0 by omega)
    have h3 := Int.emod_lt_of_pos S hBpos
    have h4 : B * (S / B) = S / B * B := Int.mul_comm _ _
    omega
  refine ⟨?_, hcalls, ?_, ?_, ?_, hmod.1, hmod.2, ?_, ?_, hbase⟩
  · rw [hout]
  · rw [hcalls]
    simp
  · rw [hout]
    simp
  · rw [hout, ← htot]
    simp only [writtenBytes_append, writtenBytes_reclaim, writtenBytes_map_write,
      List.length_range']
    split <;> simp [writtenBytes]
  · rw [hout, ← htot]
  · intro hfit
    rw [hout, ← htot]
    rw [← htot] at hfit
    exact Nat.mod_eq_of_lt hfit

theorem writeOne_full_writes_witness :
    (writeOne tenMegTask (allOk 0 1048576)).status = .returned ∧
    (writeCalls (writeOne tenMegTask (allOk 0 1048576)).trace).length = 10 ∧
    writeCalls (writeOne tenMegTask (allOk 0 1048576)).trace =
      (List.range 10).map (fun i => Event.write i 1048576 1048576 false) ∧
    Event.report 10485760 1048576 10 ∈ (writeOne tenMegTask (allOk 0 1048576)).trace ∧
    (writeOne tenMegTask (allOk 0 1048576)).wt.bytesWritten = 10485760 := by
  obtain ⟨h1, h2, h3, h4, _, _, _, h7, _, _⟩ :=
    writeOne_full_writes tenMegTask (allOk 0 1048576) 1048576 10485760 rfl rfl
      (by decide) (by decide) (by decide) (by decide) rfl rfl (fun _ => rfl) (by decide)
  exact ⟨h1, h3, h2, h4, h7⟩

/-! ### The reclaim check -/

theorem creditedBytes_append (a b : List Event) :
    creditedBytes (a ++ b) = creditedBytes a + creditedBytes b := by
  induction a with
  | nil => simp [creditedBytes]
  | cons e t ih => cases e <;> simp [creditedBytes, ih, Nat.add_assoc]

theorem creditedBytes_reclaim (wt : writeTask) : creditedBytes (reclaim wt).2 = 0 := by
  unfold reclaim
  split
  · split <;> rfl
  · rfl

/-- The counter after the write loop is the counter before it plus the credited bytes
of the loop, in `uint64` arithmetic. -/
theorem writeLoop_bytes (env : WriteEnv) (B : Int) (bufLen bufCap : Nat) :
    ∀ k i bw, bw < 2 ^ 64 →
      (writeLoop env B bufLen bufCap k i bw).2.1 =
        (bw + creditedBytes (writeLoop env B bufLen bufCap k i bw).2.2) % 2 ^ 64 := by
  intro k
  induction k with
  | zero =>
    intro i bw hbw
    simp [writeLoop, creditedBytes]
    omega
  | succ k ih =>
    intro i bw hbw
    unfold writeLoop
    by_cases h1 : bufLen = 0
    · simp [h1, creditedBytes]; omega
    · by_cases h2 : B < 0 ∨ (bufCap : Int) < B
      · simp [h1, h2, creditedBytes]; omega
      · by_cases h3 : (env.writeRes i).1 ≠ B ∨ (env.writeRes i).2 = true
        · simp only [h1, h2, h3, if_true, if_false, creditedBytes]
          have h4 : ¬ ((env.writeRes i).1 = B ∧ (env.writeRes i).2 = false) := by
            intro h; rcases h3 with h3 | h3
            · exact h3 h.1
            · rw [h.2] at h3; exact absurd h3 (by decide)
          simp [h4]; omega
        · simp only [h1, h2, h3, if_false, creditedBytes]
          have h4 : (env.writeRes i).1 = B ∧ (env.writeRes i).2 = false := by
            constructor
            · by_contra h; exact h3 (Or.inl h)
            · cases hb : (env.writeRes i).2
              · rfl
              · exact absurd (Or.inr hb) h3
          have hlt : addU64 bw (toUint64 B) < 2 ^ 64 := by unfold addU64; omega
          rw [ih _ _ hlt]
          simp only [h4, and_self, if_true]
          simp only [addU64, toUint64]
          generalize creditedBytes _ = c
          omega

theorem writeLoop_no_reclaim (env : WriteEnv) (B : Int) (bufLen bufCap : Nat) :
    ∀ k i bw, Event.resetCounter ∉ (writeLoop env B bufLen bufCap k i bw).2.2 ∧
      ∀ d, Event.sweep d ∉ (writeLoop env B bufLen bufCap k i bw).2.2 := by
  intro k
  induction k with
  | zero => intro i bw; simp [writeLoop]
  | succ k ih =>
    intro i bw
    unfold writeLoop
    by_cases h1 : bufLen = 0
    · simp [h1]
    · by_cases h2 : B < 0 ∨ (bufCap : Int) < B
      · simp [h1, h2]
      · by_cases h3 : (env.writeRes i).1 ≠ B ∨ (env.writeRes i).2 = true
        · simp [h1, h2, h3]
        · simp only [h1, h2, h3, if_false]
          have := ih (i + 1) (addU64 bw (toUint64 B))
          simp [this.1, this.2]

/-- When no write of the loop fell short or failed, the credited bytes are the bytes
that the writes returned. -/
theorem writeLoop_written (env : WriteEnv) (B : Int) (bufLen bufCap : Nat) :
    ∀ k i bw, Event.logged ∉ (writeLoop env B bufLen bufCap k i bw).2.2 →
      creditedBytes (writeLoop env B bufLen bufCap k i bw).2.2 =
        writtenBytes (writeLoop env B bufLen bufCap k i bw).2.2 := by
  intro k
  induction k with
  | zero => intro i bw _; simp [writeLoop, creditedBytes, writtenBytes]
  | succ k ih =>
    intro i bw
    unfold writeLoop
    by_cases h1 : bufLen = 0
    · simp [h1, creditedBytes, writtenBytes]
    · by_cases h2 : B < 0 ∨ (bufCap : Int) < B
      · simp [h1, h2, creditedBytes, writtenBytes]
      · by_cases h3 : (env.writeRes i).1 ≠ B ∨ (env.writeRes i).2 = true
        · simp [h1, h2, h3]
        · simp only [h1, h2, h3, if_false]
          intro hlog
          have h4 : (env.writeRes i).1 = B ∧ (env.writeRes i).2 = false := by
            constructor
            · by_contra h; exact h3 (Or.inl h)
            · cases hb : (env.writeRes i).2
              · rfl
              · exact absurd (Or.inr hb) h3
          have hrest := ih (i + 1) (addU64 bw (toUint64 B)) (by
            intro hmem
            exact hlog (List.mem_cons_of_mem _ hmem))
          simp only [creditedBytes, writtenBytes, h4, and_self, if_true, hrest]

/-- The trace of `writeOne` is the trace of the reclaim check followed by events among
which there is neither a sweep nor a reset, and the counter at the end is the counter
after the reclaim check plus the credited bytes of those events. -/
theorem writeOne_decompose (wt : writeTask) (env : WriteEnv)
    (hbw : wt.bytesWritten < 2 ^ 64) :
    ∃ tail, (writeOne wt env).trace = (reclaim wt).2 ++ tail ∧
      Event.resetCounter ∉ tail ∧ (∀ d, Event.sweep d ∉ tail) ∧
      (writeOne wt env).wt.bytesWritten =
        ((reclaim wt).1.bytesWritten + creditedBytes tail) % 2 ^ 64 ∧
      (Event.logged ∉ tail → creditedBytes tail = writtenBytes tail) := by
  have hbase : (reclaim wt).1.bytesWritten < 2 ^ 64 := by
    unfold reclaim
    split
    · simp
    · exact hbw
  have hb0 : (reclaim wt).1.bytesWritten = ((reclaim wt).1.bytesWritten + 0) % 2 ^ 64 := by
    omega
  unfold writeOne
  simp only []
  cases hg : genBufSize env.drawBuf (reclaim wt).1.bufMin (reclaim wt).1.bufMax with
  | error f =>
    exact ⟨[], by simp, by simp, by simp, by simpa [creditedBytes] using hb0, fun _ => rfl⟩
  | ok bufSize =>
    simp only []
    split
    · exact ⟨[.tempFile false], rfl, by simp, by simp, by simpa [creditedBytes] using hb0,
        fun _ => rfl⟩
    · cases hs : genFileSize env.drawSize (reclaim wt).1.minFileSize
          (reclaim wt).1.maxFileSize with
      | error f =>
        exact ⟨[.tempFile true], rfl, by simp, by simp, by simpa [creditedBytes] using hb0,
          fun _ => rfl⟩
      | ok size =>
        simp only []
        cases hd : goDiv size bufSize with
        | error f =>
          exact ⟨[.tempFile true], rfl, by simp, by simp,
            by simpa [creditedBytes] using hb0, fun _ => rfl⟩
        | ok count =>
          simp only []
          split
          · exact ⟨[.tempFile true, .openFile _ false], rfl, by simp, by simp,
              by simpa [creditedBytes] using hb0, fun _ => rfl⟩
          · have hl := writeLoop_bytes env bufSize (reclaim wt).1.bufLen
              (reclaim wt).1.bufCap count.toNat 0 _ hbase
            have hn := writeLoop_no_reclaim env bufSize (reclaim wt).1.bufLen
              (reclaim wt).1.bufCap count.toNat 0 (reclaim wt).1.bytesWritten
            have hwr := writeLoop_written env bufSize (reclaim wt).1.bufLen
              (reclaim wt).1.bufCap count.toNat 0 (reclaim wt).1.bytesWritten
            split
            · refine ⟨_, by simp only [List.append_assoc]; rfl, ?_, ?_, ?_, ?_⟩
              · simp [hn.1]
              · simp [hn.2]
              · simpa [creditedBytes_append, creditedBytes] using hl
              · intro hlog
                have hlog2 := hwr (fun hmem => hlog (by simp [hmem]))
                simp [creditedBytes_append, writtenBytes_append, creditedBytes,
                  writtenBytes, hlog2]
            · refine ⟨_, by simp only [List.append_assoc]; rfl, ?_, ?_, ?_, ?_⟩
              · simp [hn.1]
              · simp [hn.2]
              · simpa [creditedBytes_append, creditedBytes] using hl
              · intro hlog
                have hlog2 := hwr (fun hmem => hlog (by simp [hmem]))
                simp [creditedBytes_append, writtenBytes_append, creditedBytes,
                  writtenBytes, hlog2]
            · refine ⟨_, by simp only [List.append_assoc]; rfl, ?_, ?_, ?_, ?_⟩
              · have h1 := hn.1
                split <;> simp [h1]
              · intro d
                have h2 := hn.2 d
                split <;> simp [h2]
              · split <;> simpa [creditedBytes_append, creditedBytes] using hl
              · intro hlog
                have hlog2 := hwr (fun hmem => hlog (by simp [hmem]))
                split <;>
                  simp [creditedBytes_append, writtenBytes_append, creditedBytes,
                    writtenBytes, hlog2]

/-- C4 (as stated) fails. On the task of `-write -minfs 10 -maxfs 10 -minbs 1048576
-maxbs 1048576 d`, with the counter at `0` and no sweep, the first two writes succeed
and the third returns 524288 bytes with an error: 2621440 bytes have been written to the
new file, but `bytesWritten` ends as 2097152, the bytes of the two full writes. -/
theorem writeOne_short_write_not_counted :
    tenMegTask.bytesWritten = 0 ∧
    (writeOne tenMegTask shortWriteEnv).status = .returned ∧
    Event.sweep "d" ∉ (writeOne tenMegTask shortWriteEnv).trace ∧
    writeCalls (writeOne tenMegTask shortWriteEnv).trace =
      [.write 0 1048576 1048576 false, .write 1 1048576 1048576 false,
       .write 2 1048576 524288 true] ∧
    writtenBytes (writeOne tenMegTask shortWriteEnv).trace = 2621440 ∧
    (writeOne tenMegTask shortWriteEnv).wt.bytesWritten = 2097152 := by
  refine ⟨rfl, by decide, by decide, by decide, by decide, by decide⟩

/-- C4 (amended): for every write task (whose `uint64` counter is in range), `writeOne`
runs the reclaim sweep if and only if `deleteSize > 0` and `bytesWritten > deleteSize`.
When it runs, the trace starts with the sweep, the GC hint and the reset of the counter, in
this order, the counter is not reset again, everything else (the creation of the file
included) comes after, and at the end `bytesWritten` is the credited bytes of the new
file alone. When it does not run, the counter is never reset and at the end
`bytesWritten` is the old value plus the credited bytes of the new file. Sums are in
`uint64` arithmetic, hence exact whenever they fit. The credited bytes are those of the
writes that returned the full length without error; they are all the bytes written
unless a write fell short or failed (which is logged and ends the call). -/
theorem writeOne_reclaim (wt : writeTask) (env : WriteEnv)
    (hbw : wt.bytesWritten < 2 ^ 64) :
    ((∃ d, Event.sweep d ∈ (writeOne wt env).trace) ↔
      (0 < wt.deleteSize ∧ wt.deleteSize < wt.bytesWritten)) ∧
    ((0 < wt.deleteSize ∧ wt.deleteSize < wt.bytesWritten) →
      ∃ rest, (writeOne wt env).trace = [.sweep wt.dir, .gc, .resetCounter] ++ rest ∧
        Event.resetCounter ∉ rest ∧ (∀ d, Event.sweep d ∉ rest) ∧
        (writeOne wt env).wt.bytesWritten = creditedBytes rest % 2 ^ 64 ∧
        creditedBytes rest = creditedBytes (writeOne wt env).trace ∧
        (creditedBytes rest < 2 ^ 64 →
          (writeOne wt env).wt.bytesWritten = creditedBytes rest)) ∧
    (¬ (0 < wt.deleteSize ∧ wt.deleteSize < wt.bytesWritten) →
      Event.resetCounter ∉ (writeOne wt env).trace ∧
      (writeOne wt env).wt.bytesWritten =
        (wt.bytesWritten + creditedBytes (writeOne wt env).trace) % 2 ^ 64 ∧
      (wt.bytesWritten + creditedBytes (writeOne wt env).trace < 2 ^ 64 →
        (writeOne wt env).wt.bytesWritten =
          wt.bytesWritten + creditedBytes (writeOne wt env).trace)) ∧
    (Event.logged ∉ (writeOne wt env).trace →
      creditedBytes (writeOne wt env).trace = writtenBytes (writeOne wt env).trace) := by
  obtain ⟨tail, htr, hnr, hns, hbytes, hwritten⟩ := writeOne_decompose wt env hbw
  have hlast : Event.logged ∉ (writeOne wt env).trace →
      creditedBytes (writeOne wt env).trace = writtenBytes (writeOne wt env).trace := by
    intro hlog
    rw [htr] at hlog ⊢
    rw [creditedBytes_append, writtenBytes_append, creditedBytes_reclaim,
      writtenBytes_reclaim]
    rw [hwritten (fun hmem => hlog (List.mem_append_right _ hmem))]
  rw [← and_assoc, ← and_assoc]
  refine ⟨?_, hlast⟩
  rw [and_assoc]
  by_cases hf : 0 < wt.deleteSize ∧ wt.deleteSize < wt.bytesWritten
  · have hrec : reclaim wt = ({ wt with bytesWritten := 0 },
        [.sweep wt.dir, .gc, .resetCounter] ++
          (if wt.sleepAfterDelete > 0 then [.sleep wt.sleepAfterDelete] else [])) := by
      unfold reclaim
      have hf2 : wt.deleteSize > 0 ∧ wt.bytesWritten > wt.deleteSize := hf
      simp only [hf2, and_self, if_true]
    rw [hrec] at htr hbytes
    have hrest : (writeOne wt env).trace = [.sweep wt.dir, .gc, .resetCounter] ++
        ((if wt.sleepAfterDelete > 0 then [Event.sleep wt.sleepAfterDelete] else []) ++
          tail) := by
      rw [htr, List.append_assoc]
    have hcred : creditedBytes
        ((if wt.sleepAfterDelete > 0 then [Event.sleep wt.sleepAfterDelete] else []) ++
          tail) = creditedBytes tail := by
      rw [creditedBytes_append]
      split <;> simp [creditedBytes]
    refine ⟨⟨fun _ => hf, fun _ => ⟨wt.dir, by rw [hrest]; simp⟩⟩, ?_, fun h => absurd hf h⟩
    intro _
    refine ⟨_, hrest, ?_, ?_, ?_, ?_, ?_⟩
    · split <;> simp [hnr]
    · intro d
      have := hns d
      split <;> simp [this]
    · rw [hcred, hbytes]
      simp
    · rw [hrest, hcred]
      simp [creditedBytes, creditedBytes_append]
      split <;> simp [creditedBytes]
    · intro hlt
      rw [hcred] at hlt ⊢
      rw [hbytes]
      simp only [Nat.zero_add]
      exact Nat.mod_eq_of_lt hlt
  · have hrec : reclaim wt = (wt, []) := by
      unfold reclaim
      have hf2 : ¬ (wt.deleteSize > 0 ∧ wt.bytesWritten > wt.deleteSize) := hf
      simp only [hf2, if_false]
    rw [hrec] at htr hbytes
    simp only [List.nil_append] at htr
    refine ⟨⟨fun ⟨d, hd⟩ => ?_, fun h => absurd h hf⟩, fun h => absurd h hf, fun _ => ?_⟩
    · rw [htr] at hd
      exact absurd hd (hns d)
    · rw [htr]
      refine ⟨hnr, hbytes, fun hlt => ?_⟩
      rw [hbytes]
      exact Nat.mod_eq_of_lt hlt

theorem writeOne_reclaim_witness :
    reclaimTask.bytesWritten < 2 ^ 64 ∧
    (0 < reclaimTask.deleteSize ∧ reclaimTask.deleteSize < reclaimTask.bytesWritten) ∧
    (∃ d, Event.sweep d ∈ (writeOne reclaimTask (allOk 0 524288)).trace) ∧
    (writeOne reclaimTask (allOk 0 524288)).wt.bytesWritten = 1048576 := by
  have h := writeOne_reclaim reclaimTask (allOk 0 524288) (by decide)
  refine ⟨by decide, by decide, h.1.2 (by decide), ?_⟩
  decide

/-! ### `main` -/

theorem waits_append (a b : List Action) : waits (a ++ b) = waits a ++ waits b := by
  induction a with
  | nil => rfl
  | cons e t ih => cases e <;> simp [waits, ih]

theorem waits_spawn (f : Flags) (minFileSize maxFileSize : Int) (deleteSize slack : Nat) :
    ∀ dirs, waits (spawn f minFileSize maxFileSize deleteSize slack dirs) = [] := by
  intro dirs
  induction dirs with
  | nil => rfl
  | cons d rest ih =>
    unfold spawn
    rw [waits_append, waits_append, ih]
    cases f.write <;> cases f.read <;> simp [waits]

/-- What `main` does in terms of its five checks. -/
theorem main_cases (f : Flags) (slack : Nat) :
    main f slack =
      if f.read = false ∧ f.write = false then .exited 1 "Need --read or --write\n"
      else if f.args = [] then .exited 1 "Need target dir\n"
      else if f.maxbs ≤ 0 then .exited 1 "maxbs must be greater 0\n"
      else if wrap64 (f.maxfs * (1024 * 1024)) ≤ 0 ∨
          wrap64 (f.maxfs * (1024 * 1024)) < f.maxbs then
        .exited 1 "maxFileSize must be greater 0 and greater than maxbs\n"
      else if f.direct = true ∧ f.maxbs ≠ f.minbs then
        .fatal "block sizes must be the same for direct"
      else
        .run (spawn f (wrap64 (f.minfs * (1024 * 1024))) (wrap64 (f.maxfs * (1024 * 1024)))
          (toUint64 (wrap64 (wrap64 (wrap64 (f.ds * 1024) * 1024) * 1024))) slack f.args ++
          [.waitReaders, .waitWriters]) := by
  unfold main
  simp only [List.length_eq_zero]

/-- C5 (as stated) fails: for `-read -write d` the main goroutine calls `wgr.Wait()`
(the readers) first and `wgw.Wait()` (the writers) second. -/
theorem main_join_order_example :
    main readWriteFlags 0 = .run readWriteActs ∧
    waits readWriteActs = [.waitReaders, .waitWriters] ∧
    waits readWriteActs ≠ [.waitWriters, .waitReaders] := by
  refine ⟨by decide, by decide, by decide⟩

/-- C5 (amended): whenever `main` accepts the configuration, its steps are the spawn
loop, which joins nothing, followed by exactly two joins in this order: first the
readers (`wgr.Wait()`), then the writers (`wgw.Wait()`). -/
theorem main_join_order (f : Flags) (slack : Nat) (acts : List Action)
    (h : main f slack = .run acts) :
    (∃ spawns, acts = spawns ++ [.waitReaders, .waitWriters] ∧ waits spawns = []) ∧
    waits acts = [.waitReaders, .waitWriters] := by
  rw [main_cases] at h
  split at h
  · exact absurd h (by simp)
  · split at h
    · exact absurd h (by simp)
    · split at h
      · exact absurd h (by simp)
      · split at h
        · exact absurd h (by simp)
        · split at h
          · exact absurd h (by simp)
          · injection h with h
            subst h
            refine ⟨⟨_, rfl, waits_spawn _ _ _ _ _ _⟩, ?_⟩
            rw [waits_append, waits_spawn]
            rfl

theorem main_join_order_witness :
    main readWriteFlags 0 = .run readWriteActs ∧
    (∃ spawns, readWriteActs = spawns ++ [.waitReaders, .waitWriters] ∧
      waits spawns = []) :=
  ⟨by decide, (main_join_order readWriteFlags 0 readWriteActs (by decide)).1⟩

/-- C6 fails on the code: with `-write -maxfs 1 -minbs 1048576 -maxbs 1048576 d` the
maximal file size in bytes equals `maxbs`, and `main` does not exit: the guard
`*maxFileSize < *bufMax` lets equality pass, although its own message reads "must be
greater 0 and greater than maxbs", and the writer is constructed and started. -/
theorem main_equal_sizes_accepted :
    wrap64 (equalSizeFlags.maxfs * (1024 * 1024)) = equalSizeFlags.maxbs ∧
    main equalSizeFlags 0 = .run
      [.addWriter,
       .spawnWriter ⟨"d", 0, 1048576, 1048576, 1048576, 1048576, false, 0, 1048576,
          1048576, false, 0, false⟩ (-1),
       .waitReaders, .waitWriters] ∧
    (∀ msg, main equalSizeFlags 0 ≠ .exited 1 msg) := by
  refine ⟨by decide, by decide, ?_⟩
  intro msg h
  have h2 : main equalSizeFlags 0 = .run
      [.addWriter,
       .spawnWriter ⟨"d", 0, 1048576, 1048576, 1048576, 1048576, false, 0, 1048576,
          1048576, false, 0, false⟩ (-1),
       .waitReaders, .waitWriters] := by decide
  rw [h2] at h
  exact absurd h (by simp)

/-- The four checks that end `main` with `os.Exit(1)`: whenever neither read nor write
is requested, or no target directory is given, or `maxbs ≤ 0`, or the maximal file size
in bytes is `≤ 0` or `< maxbs`, `main` exits with code 1 and constructs no worker. -/
theorem main_exit_one (f : Flags) (slack : Nat)
    (h : (f.read = false ∧ f.write = false) ∨ f.args = [] ∨ f.maxbs ≤ 0 ∨
        wrap64 (f.maxfs * (1024 * 1024)) ≤ 0 ∨
        wrap64 (f.maxfs * (1024 * 1024)) < f.maxbs) :
    ∃ msg, main f slack = .exited 1 msg := by
  rw [main_cases]
  by_cases h1 : f.read = false ∧ f.write = false
  · exact ⟨_, by rw [if_pos h1]⟩
  · by_cases h2 : f.args = []
    · exact ⟨_, by rw [if_neg h1, if_pos h2]⟩
    · by_cases h3 : f.maxbs ≤ 0
      · exact ⟨_, by rw [if_neg h1, if_neg h2, if_pos h3]⟩
      · have h4 : wrap64 (f.maxfs * (1024 * 1024)) ≤ 0 ∨
            wrap64 (f.maxfs * (1024 * 1024)) < f.maxbs := by
          rcases h with h | h | h | h | h
          · exact absurd h h1
          · exact absurd h h2
          · exact absurd h h3
          · exact Or.inl h
          · exact Or.inr h
        exact ⟨_, by rw [if_neg h1, if_neg h2, if_neg h3, if_pos h4]⟩

/-- Every task that `main` builds has `bufMax > 0`: these are the only values on which
the program calls `genBufSize`. -/
theorem spawned_bufMax_pos (f : Flags) (slack : Nat) (acts : List Action)
    (h : main f slack = .run acts) :
    (∀ wt it, Action.spawnWriter wt it ∈ acts → 0 < wt.bufMax ∧ wt.bufMin = f.minbs) ∧
    (∀ rt it, Action.spawnReader rt it ∈ acts → 0 < rt.bufMax ∧ rt.bufMin = f.minbs) := by
  have hsp : ∀ (a b : Int) (c d : Nat) (dirs : List String),
      (∀ wt it, Action.spawnWriter wt it ∈ spawn f a b c d dirs →
        wt.bufMax = f.maxbs ∧ wt.bufMin = f.minbs) ∧
      (∀ rt it, Action.spawnReader rt it ∈ spawn f a b c d dirs →
        rt.bufMax = f.maxbs ∧ rt.bufMin = f.minbs) := by
    intro a b c d dirs
    induction dirs with
    | nil => simp [spawn]
    | cons x rest ih =>
      unfold spawn
      constructor
      · intro wt it hmem
        simp only [List.mem_append] at hmem
        rcases hmem with (hmem | hmem) | hmem
        · split at hmem
          · simp at hmem
            obtain ⟨e, _⟩ := hmem
            subst e
            exact ⟨rfl, rfl⟩
          · simp at hmem
        · split at hmem <;> simp at hmem
        · exact ih.1 wt it hmem
      · intro rt it hmem
        simp only [List.mem_append] at hmem
        rcases hmem with (hmem | hmem) | hmem
        · split at hmem <;> simp at hmem
        · split at hmem
          · simp at hmem
            obtain ⟨e, _⟩ := hmem
            subst e
            exact ⟨rfl, rfl⟩
          · simp at hmem
        · exact ih.2 rt it hmem
  rw [main_cases] at h
  split at h
  · exact absurd h (by simp)
  · split at h
    · exact absurd h (by simp)
    · split at h
      · exact absurd h (by simp)
      · rename_i c3
        split at h
        · exact absurd h (by simp)
        · split at h
          · exact absurd h (by simp)
          · injection h with h
            subst h
            constructor
            · intro wt it hmem
              simp only [List.mem_append, List.mem_cons, List.mem_singleton,
                List.not_mem_nil, or_false] at hmem
              rcases hmem with hmem | hmem | hmem
              · have := (hsp _ _ _ _ _).1 wt it hmem
                rw [this.1]
                exact ⟨by omega, this.2⟩
              · exact absurd hmem (by simp)
              · exact absurd hmem (by simp)
            · intro rt it hmem
              simp only [List.mem_append, List.mem_cons, List.mem_singleton,
                List.not_mem_nil, or_false] at hmem
              rcases hmem with hmem | hmem | hmem
              · have := (hsp _ _ _ _ _).2 rt it hmem
                rw [this.1]
                exact ⟨by omega, this.2⟩
              · exact absurd hmem (by simp)
              · exact absurd hmem (by simp)

/-- C7 (as stated) fails: with `-direct -minbs 4096 -maxbs 8192 d` and neither `-read`
nor `-write`, `main` does not reach `log.Fatal`: the first check ends the process with
`os.Exit(1)`. -/
theorem main_direct_mismatch_exit_one :
    directNoModeFlags.direct = true ∧ directNoModeFlags.minbs ≠ directNoModeFlags.maxbs ∧
    main directNoModeFlags 0 = .exited 1 "Need --read or --write\n" ∧
    main directNoModeFlags 0 ≠ .fatal "block sizes must be the same for direct" := by
  refine ⟨by decide, by decide, by decide, by decide⟩

/-- C7 (amended): if `main` reaches the spawn loop then read or write is requested, a
directory is given, `maxbs > 0`, the maximal file size in bytes is `> 0` and `≥ maxbs`,
and `direct` implies `minbs = maxbs`. With `direct` and `minbs ≠ maxbs`, `main` never
reaches the spawn loop: it ends with `log.Fatal` exactly when the four earlier checks
pass, and with `os.Exit(1)` from an earlier check otherwise. -/
theorem main_spawn_checks (f : Flags) (slack : Nat) :
    (∀ acts, main f slack = .run acts →
      (f.read = true ∨ f.write = true) ∧ f.args ≠ [] ∧ 0 < f.maxbs ∧
      0 < wrap64 (f.maxfs * (1024 * 1024)) ∧
      f.maxbs ≤ wrap64 (f.maxfs * (1024 * 1024)) ∧
      (f.direct = true → f.minbs = f.maxbs)) ∧
    (f.direct = true ∧ f.minbs ≠ f.maxbs →
      (∀ acts, main f slack ≠ .run acts) ∧
      (main f slack = .fatal "block sizes must be the same for direct" ↔
        ((f.read = true ∨ f.write = true) ∧ f.args ≠ [] ∧ 0 < f.maxbs ∧
          0 < wrap64 (f.maxfs * (1024 * 1024)) ∧
          f.maxbs ≤ wrap64 (f.maxfs * (1024 * 1024)))) ∧
      (main f slack = .fatal "block sizes must be the same for direct" ∨
        ∃ msg, main f slack = .exited 1 msg)) := by
  have key : ∀ acts, main f slack = .run acts →
      (f.read = true ∨ f.write = true) ∧ f.args ≠ [] ∧ 0 < f.maxbs ∧
      0 < wrap64 (f.maxfs * (1024 * 1024)) ∧
      f.maxbs ≤ wrap64 (f.maxfs * (1024 * 1024)) ∧
      (f.direct = true → f.minbs = f.maxbs) := by
    intro acts h
    rw [main_cases] at h
    split at h
    · exact absurd h (by simp)
    · rename_i c1
      split at h
      · exact absurd h (by simp)
      · rename_i c2
        split at h
        · exact absurd h (by simp)
        · rename_i c3
          split at h
          · exact absurd h (by simp)
          · rename_i c4
            split at h
            · exact absurd h (by simp)
            · rename_i c5
              refine ⟨?_, c2, by omega, by omega, by omega, ?_⟩
              · cases hr : f.read
                · cases hw : f.write
                  · exact absurd ⟨hr, hw⟩ c1
                  · exact Or.inr rfl
                · exact Or.inl rfl
              · intro hd
                by_contra hne
                exact c5 ⟨hd, fun e => hne e.symm⟩
  refine ⟨key, ?_⟩
  rintro ⟨hd, hne⟩
  have hnorun : ∀ acts, main f slack ≠ .run acts := by
    intro acts h
    exact hne ((key acts h).2.2.2.2.2 hd)
  have hm : f.direct = true ∧ f.maxbs ≠ f.minbs := ⟨hd, fun e => hne e.symm⟩
  refine ⟨hnorun, ?_, ?_⟩
  · rw [main_cases]
    constructor
    · intro h
      split at h
      · exact absurd h (by simp)
      · rename_i c1
        split at h
        · exact absurd h (by simp)
        · rename_i c2
          split at h
          · exact absurd h (by simp)
          · rename_i c3
            split at h
            · exact absurd h (by simp)
            · rename_i c4
              refine ⟨?_, c2, by omega, by omega, by omega⟩
              cases hr : f.read
              · cases hw : f.write
                · exact absurd ⟨hr, hw⟩ c1
                · exact Or.inr rfl
              · exact Or.inl rfl
    · rintro ⟨h1, h2, h3, h4, h5⟩
      have c1 : ¬ (f.read = false ∧ f.write = false) := by
        rintro ⟨a, b⟩
        rcases h1 with h1 | h1
        · rw [a] at h1; exact absurd h1 (by decide)
        · rw [b] at h1; exact absurd h1 (by decide)
      have c3 : ¬ f.maxbs ≤ 0 := by omega
      have c4 : ¬ (wrap64 (f.maxfs * (1024 * 1024)) ≤ 0 ∨
          wrap64 (f.maxfs * (1024 * 1024)) < f.maxbs) := by omega
      rw [if_neg c1, if_neg h2, if_neg c3, if_neg c4, if_pos hm]
  · rw [main_cases]
    by_cases c1 : f.read = false ∧ f.write = false
    · exact Or.inr ⟨_, by rw [if_pos c1]⟩
    · by_cases c2 : f.args = []
      · exact Or.inr ⟨_, by rw [if_neg c1, if_pos c2]⟩
      · by_cases c3 : f.maxbs ≤ 0
        · exact Or.inr ⟨_, by rw [if_neg c1, if_neg c2, if_pos c3]⟩
        · by_cases c4 : wrap64 (f.maxfs * (1024 * 1024)) ≤ 0 ∨
              wrap64 (f.maxfs * (1024 * 1024)) < f.maxbs
          · exact Or.inr ⟨_, by rw [if_neg c1, if_neg c2, if_neg c3, if_pos c4]⟩
          · exact Or.inl (by rw [if_neg c1, if_neg c2, if_neg c3, if_neg c4, if_pos hm])

theorem main_spawn_checks_witness :
    (directMismatchFlags.direct = true ∧
      directMismatchFlags.minbs ≠ directMismatchFlags.maxbs) ∧
    main directMismatchFlags 0 = .fatal "block sizes must be the same for direct" ∧
    (main readWriteFlags 0 = .run readWriteActs ∧ 0 < readWriteFlags.maxbs) :=
  ⟨by decide,
    ((main_spawn_checks directMismatchFlags 0).2 (by decide)).2.1.mpr (by decide),
    by decide, ((main_spawn_checks readWriteFlags 0).1 readWriteActs (by decide)).2.2.1⟩

/-! ### The worker loops -/

theorem wrap64_succ (c : Int) : wrap64 (wrap64 c + 1) = wrap64 (c + 1) := by
  unfold wrap64
  omega

/-- As long as the stop test `count == iter` fails, the writer loop does not reach
`wg.Done()`, and every pass granted beyond the first only adds calls of `writeOne`. -/
theorem writerLoop_not_done (envs : Nat → WriteEnv) (iter : Int) :
    ∀ (fuel : Nat) (c : Int) (passes : Nat) (wt : writeTask),
      (∀ j : Nat, 0 < j → j ≤ fuel → wrap64 (c + j) ≠ iter) →
      (writerLoop envs iter fuel (wrap64 c) passes wt).ending ≠ .done ∧
      passes ≤ (writerLoop envs iter fuel (wrap64 c) passes wt).passes ∧
      (0 < fuel → passes + 1 ≤ (writerLoop envs iter fuel (wrap64 c) passes wt).passes) := by
  intro fuel
  induction fuel with
  | zero =>
    intro c passes wt _
    simp [writerLoop]
  | succ fuel ih =>
    intro c passes wt hne
    have h1 : wrap64 (wrap64 c + 1) ≠ iter := by
      rw [wrap64_succ]
      have := hne 1 (by omega) (by omega)
      simpa using this
    have hrest : ∀ j : Nat, 0 < j → j ≤ fuel → wrap64 (c + 1 + j) ≠ iter := by
      intro j hj hle
      have := hne (j + 1) (by omega) (by omega)
      have e : c + ((j + 1 : Nat) : Int) = c + 1 + (j : Int) := by push_cast; ring
      rw [e] at this
      exact this
    unfold writerLoop
    simp only []
    split
    · rw [if_neg h1, wrap64_succ]
      have := ih (c + 1) (passes + 1) (writeOne wt (envs passes)).wt hrest
      simp only []
      refine ⟨this.1, by omega, fun _ => by omega⟩
    · simp

/-- The same for the reader loop. -/
theorem readerLoop_not_done (rt : readTask) (dirs : Nat → List ReadEnv) (iter : Int) :
    ∀ (fuel : Nat) (c : Int) (passes : Nat),
      (∀ j : Nat, 0 < j → j ≤ fuel → wrap64 (c + j) ≠ iter) →
      (readerLoop rt dirs iter fuel (wrap64 c) passes).ending ≠ .done ∧
      passes ≤ (readerLoop rt dirs iter fuel (wrap64 c) passes).passes ∧
      (0 < fuel → passes + 1 ≤ (readerLoop rt dirs iter fuel (wrap64 c) passes).passes) := by
  intro fuel
  induction fuel with
  | zero =>
    intro c passes _
    simp [readerLoop]
  | succ fuel ih =>
    intro c passes hne
    have h1 : wrap64 (wrap64 c + 1) ≠ iter := by
      rw [wrap64_succ]
      have := hne 1 (by omega) (by omega)
      simpa using this
    have hrest : ∀ j : Nat, 0 < j → j ≤ fuel → wrap64 (c + 1 + j) ≠ iter := by
      intro j hj hle
      have := hne (j + 1) (by omega) (by omega)
      have e : c + ((j + 1 : Nat) : Int) = c + 1 + (j : Int) := by push_cast; ring
      rw [e] at this
      exact this
    unfold readerLoop
    split
    · rw [if_neg h1, wrap64_succ]
      have := ih (c + 1) (passes + 1) hrest
      simp only []
      refine ⟨this.1, by omega, fun _ => by omega⟩
    · simp

/-- C8, the case `iter = 0`: whatever the task and the environment, `writer(0)` and
`reader(0)` enter the loop body (at least one call of `writeOne`, at least one walk)
and do not reach `wg.Done()` within any number of passes below `2 ^ 64`: the stop test
`count == iter` compares a counter that is already `1` after the first pass with `0`. -/
theorem zero_iterations_not_done (wt : writeTask) (rt : readTask)
    (envs : Nat → WriteEnv) (dirs : Nat → List ReadEnv) (fuel : Nat)
    (h0 : 0 < fuel) (hfuel : fuel < 2 ^ 64) :
    (writer wt 0 envs fuel).ending ≠ .done ∧ 1 ≤ (writer wt 0 envs fuel).passes ∧
    (reader rt 0 dirs fuel).ending ≠ .done ∧ 1 ≤ (reader rt 0 dirs fuel).passes := by
  have hne : ∀ j : Nat, 0 < j → j ≤ fuel → wrap64 ((0 : Int) + j) ≠ 0 := by
    intro j hj hle
    unfold wrap64
    omega
  have hw := writerLoop_not_done envs 0 fuel 0 0 wt hne
  have hr := readerLoop_not_done rt dirs 0 fuel 0 0 hne
  have e : wrap64 0 = 0 := by decide
  rw [e] at hw hr
  unfold writer reader
  refine ⟨hw.1, ?_, hr.1, ?_⟩
  · have := hw.2.2 h0
    simpa using this
  · have := hr.2.2 h0
    simpa using this

theorem zero_iterations_not_done_witness :
    (writer tenMegTask 0 (fun _ => allOk 0 1048576) 3).ending = .running ∧
    (writer tenMegTask 0 (fun _ => allOk 0 1048576) 3).passes = 3 ∧
    (writer tenMegTask 0 (fun _ => allOk 0 1048576) 3).ending ≠ .done ∧
    (reader rangeReadTask 0 (fun _ => [⟨0, some 8192⟩]) 3).ending ≠ .done :=
  ⟨by decide, by decide,
    (zero_iterations_not_done tenMegTask rangeReadTask (fun _ => allOk 0 1048576)
      (fun _ => [⟨0, some 8192⟩]) 3 (by decide) (by decide)).1,
    (zero_iterations_not_done tenMegTask rangeReadTask (fun _ => allOk 0 1048576)
      (fun _ => [⟨0, some 8192⟩]) 3 (by decide) (by decide)).2.2.1⟩

/-- When the stop test first succeeds at the `n`-th pass and every call of `writeOne`
returns (which an invariant `P` of the task guarantees), the writer loop makes exactly
`n` calls and then reaches `wg.Done()`. -/
theorem writerLoop_done (envs : Nat → WriteEnv) (iter : Int) (P : writeTask → Prop)
    (hstep : ∀ k w, P w →
      (writeOne w (envs k)).status = .returned ∧ P (writeOne w (envs k)).wt) :
    ∀ (fuel n : Nat) (c : Int) (passes : Nat) (wt : writeTask),
      P wt → 0 < n → n ≤ fuel →
      (∀ j : Nat, 0 < j → j < n → wrap64 (c + j) ≠ iter) → wrap64 (c + n) = iter →
      (writerLoop envs iter fuel (wrap64 c) passes wt).ending = .done ∧
      (writerLoop envs iter fuel (wrap64 c) passes wt).passes = passes + n := by
  intro fuel
  induction fuel with
  | zero =>
    intro n c passes wt _ hn hle
    omega
  | succ fuel ih =>
    intro n c passes wt hP hn hle hne heq
    unfold writerLoop
    simp only [(hstep passes wt hP).1, wrap64_succ]
    by_cases h1 : n = 1
    · subst h1
      have e : wrap64 (c + 1) = iter := by simpa using heq
      rw [if_pos e]
      exact ⟨rfl, rfl⟩
    · have e : wrap64 (c + 1) ≠ iter := by
        have := hne 1 (by omega) (by omega)
        simpa using this
      rw [if_neg e]
      simp only []
      have hne2 : ∀ j : Nat, 0 < j → j < n - 1 → wrap64 (c + 1 + j) ≠ iter := by
        intro j hj hlt
        have := hne (j + 1) (by omega) (by omega)
        have e2 : c + ((j + 1 : Nat) : Int) = c + 1 + (j : Int) := by push_cast; ring
        rw [e2] at this
        exact this
      have heq2 : wrap64 (c + 1 + ((n - 1 : Nat) : Int)) = iter := by
        have e2 : c + 1 + ((n - 1 : Nat) : Int) = c + (n : Int) := by omega
        rw [e2]
        exact heq
      have := ih (n - 1) (c + 1) (passes + 1) (writeOne wt (envs passes)).wt
        (hstep passes wt hP).2 (by omega) (by omega) hne2 heq2
      refine ⟨this.1, ?_⟩
      rw [this.2]
      omega

/-- The same for the reader loop, when every walk returns. -/
theorem readerLoop_done (rt : readTask) (dirs : Nat → List ReadEnv) (iter : Int)
    (hwalk : ∀ k, (walk rt (dirs k)).1 = .returned) :
    ∀ (fuel n : Nat) (c : Int) (passes : Nat),
      0 < n → n ≤ fuel →
      (∀ j : Nat, 0 < j → j < n → wrap64 (c + j) ≠ iter) → wrap64 (c + n) = iter →
      (readerLoop rt dirs iter fuel (wrap64 c) passes).ending = .done ∧
      (readerLoop rt dirs iter fuel (wrap64 c) passes).passes = passes + n := by
  intro fuel
  induction fuel with
  | zero =>
    intro n c passes hn hle
    omega
  | succ fuel ih =>
    intro n c passes hn hle hne heq
    unfold readerLoop
    have hw : walk rt (dirs passes) = (.returned, (walk rt (dirs passes)).2) :=
      Prod.ext (hwalk passes) rfl
    rw [hw]
    simp only [wrap64_succ]
    by_cases h1 : n = 1
    · subst h1
      have e : wrap64 (c + 1) = iter := by simpa using heq
      rw [if_pos e]
      exact ⟨rfl, rfl⟩
    · have e : wrap64 (c + 1) ≠ iter := by
        have := hne 1 (by omega) (by omega)
        simpa using this
      rw [if_neg e]
      simp only []
      have hne2 : ∀ j : Nat, 0 < j → j < n - 1 → wrap64 (c + 1 + j) ≠ iter := by
        intro j hj hlt
        have := hne (j + 1) (by omega) (by omega)
        have e2 : c + ((j + 1 : Nat) : Int) = c + 1 + (j : Int) := by push_cast; ring
        rw [e2] at this
        exact this
      have heq2 : wrap64 (c + 1 + ((n - 1 : Nat) : Int)) = iter := by
        have e2 : c + 1 + ((n - 1 : Nat) : Int) = c + (n : Int) := by omega
        rw [e2]
        exact heq
      have := ih (n - 1) (c + 1) (passes + 1) (by omega) (by omega) hne2 heq2
      refine ⟨this.1, ?_⟩
      rw [this.2]
      omega

/-- For `1 ≤ n < 2 ^ 63`, `writer(n)` calls `writeOne` exactly `n` times and then
calls `wg.Done()`, provided every call of `writeOne` returns; `reader(n)` makes exactly
`n` walks and then calls `wg.Done()`, provided every walk returns. -/
theorem positive_iterations_done (wt : writeTask) (rt : readTask)
    (envs : Nat → WriteEnv) (dirs : Nat → List ReadEnv) (P : writeTask → Prop)
    (hP : P wt)
    (hstep : ∀ k w, P w →
      (writeOne w (envs k)).status = .returned ∧ P (writeOne w (envs k)).wt)
    (hwalk : ∀ k, (walk rt (dirs k)).1 = .returned)
    (n fuel : Nat) (h1 : 1 ≤ n) (h63 : n < 2 ^ 63) (hfuel : n ≤ fuel) :
    (writer wt n envs fuel).ending = .done ∧ (writer wt n envs fuel).passes = n ∧
    (reader rt n dirs fuel).ending = .done ∧ (reader rt n dirs fuel).passes = n := by
  have hne : ∀ j : Nat, 0 < j → j < n → wrap64 ((0 : Int) + j) ≠ (n : Int) := by
    intro j hj hlt
    unfold wrap64
    omega
  have heq : wrap64 ((0 : Int) + n) = (n : Int) := by
    unfold wrap64
    omega
  have hw := writerLoop_done envs n P hstep fuel n 0 0 wt hP h1 hfuel hne heq
  have hr := readerLoop_done rt dirs n hwalk fuel n 0 0 h1 hfuel hne heq
  have e : wrap64 0 = 0 := by decide
  rw [e] at hw hr
  unfold writer reader
  refine ⟨hw.1, ?_, hr.1, ?_⟩
  · simpa using hw.2
  · simpa using hr.2

/-! ### `readOne` -/

theorem readCalls_append (a b : List Event) :
    readCalls (a ++ b) = readCalls a ++ readCalls b := by
  induction a with
  | nil => rfl
  | cons e t ih => cases e <;> simp [readCalls, ih]

theorem readCalls_readLoop (bufLen : Nat) :
    ∀ k, readCalls (readLoop bufLen k) = List.replicate k (Event.read bufLen) := by
  intro k
  induction k with
  | zero => rfl
  | succ k ih => simp [readLoop, readCalls, ih, List.replicate_succ]

/-- For an entry of size `F ≥ 0` and a sampled buffer size `B > 0`, `readOne` returns
after exactly `floor(F/B)` calls of `f.Read`, each of which requests `len(rt.buf)`
bytes, and reports the count `floor(F/B)`. -/
theorem readOne_reads (rt : readTask) (env : ReadEnv) (B F : Int)
    (hB : genBufSize env.draw rt.bufMin rt.bufMax = .ok B) (hBpos : 0 < B)
    (hF : env.size = some F) (hF0 : 0 ≤ F) :
    (readOne rt env).1 = .returned ∧
    readCalls (readOne rt env).2 = List.replicate (F / B).toNat (Event.read rt.bufLen) ∧
    Event.report F B (F / B) ∈ (readOne rt env).2 := by
  have hout : readOne rt env = (.returned,
      [.stat true, .openRead] ++ readLoop rt.bufLen (F / B).toNat ++
        [.close, .report F B (F / B), .close]) := by
    unfold readOne
    simp only [hB, hF, goDiv_floor F B hF0 hBpos]
  rw [hout]
  refine ⟨rfl, ?_, by simp⟩
  simp [readCalls_append, readCalls_readLoop, readCalls]

/-- C9 fails on the code: the read task of `-read -minbs 1024 -maxbs 4096 d`, the draw
`0` and an entry of 8192 bytes. The sampled buffer size is `1024` and the count is
`8192 / 1024 = 8`, but each of the 8 calls of `f.Read(rt.buf)` requests the whole
buffer of `4096` bytes, not `1024`. -/
theorem readOne_requests_whole_buffer :
    genBufSize 0 rangeReadTask.bufMin rangeReadTask.bufMax = .ok 1024 ∧
    readCalls (readOne rangeReadTask ⟨0, some 8192⟩).2 = List.replicate 8 (.read 4096) ∧
    Event.read 1024 ∉ (readOne rangeReadTask ⟨0, some 8192⟩).2 ∧
    Event.report 8192 1024 8 ∈ (readOne rangeReadTask ⟨0, some 8192⟩).2 := by
  refine ⟨rfl, by decide, by decide, by decide⟩

/-! ### Run-time panics under accepted configurations -/

/-- C10 fails on the code. `main` accepts `-write -minbs -1 -maxbs 8192 d`; with the
draw `16384` the sampled buffer size is `16384 % 8192 = 0` and `size / bufSize` panics
in `writeOne`, as does `fi.Size() / int64(bufSize)` in `readOne`. `main` also accepts
`-write -minbs 10000 -maxbs 8192 d`; there every sampled buffer size is at least
`10000`, above the 8192 bytes of the buffer, and `wt.buf[0:bufSize]` panics. -/
theorem accepted_configurations_panic :
    main randomBufFlags 0 =
      .run [.addWriter, .spawnWriter randomBufTask (-1), .waitReaders, .waitWriters] ∧
    genBufSize 16384 randomBufTask.bufMin randomBufTask.bufMax = .ok 0 ∧
    (writeOne randomBufTask (allOk 16384 0)).status = .panicked .divideByZero ∧
    (readOne randomReadTask ⟨16384, some 8192⟩).1 = .panicked .divideByZero ∧
    main invertedBufFlags 0 =
      .run [.addWriter, .spawnWriter invertedBufTask (-1), .waitReaders, .waitWriters] ∧
    genBufSize 5 invertedBufTask.bufMin invertedBufTask.bufMax = .ok 10005 ∧
    (writeOne invertedBufTask (allOk 5 10005)).status = .panicked .sliceOutOfRange := by
  refine ⟨by decide, rfl, by decide, by decide, by decide, rfl, by decide⟩

/-! ### A complete run -/

/-- The method `writeOne` changes no field of the task other than `bytesWritten`. -/
theorem writeOne_config (wt : writeTask) (env : WriteEnv) :
    (writeOne wt env).wt = { wt with bytesWritten := (writeOne wt env).wt.bytesWritten } := by
  have hr : ∀ b, ({ (reclaim wt).1 with bytesWritten := b } : writeTask) =
      { wt with bytesWritten := b } := by
    intro b
    unfold reclaim
    split <;> rfl
  have hr0 : (reclaim wt).1 = { wt with bytesWritten := (reclaim wt).1.bytesWritten } := by
    unfold reclaim
    split <;> rfl
  unfold writeOne
  simp only []
  split
  · exact hr0
  · split
    · exact hr0
    · split
      · exact hr0
      · split
        · exact hr0
        · split
          · exact hr0
          · split <;> exact hr _

/-- With `-iter 2 -minfs 10 -maxfs 10 -minbs 1048576 -maxbs 1048576` and every system
call succeeding, the writer makes exactly two calls of `writeOne` and the reader exactly
two walks, and both then call `wg.Done()`. -/
theorem two_iterations_done (fuel : Nat) (hfuel : 2 ≤ fuel) :
    (writer tenMegTask 2 (fun _ => allOk 0 1048576) fuel).ending = .done ∧
    (writer tenMegTask 2 (fun _ => allOk 0 1048576) fuel).passes = 2 ∧
    (reader rangeReadTask 2 (fun _ => [⟨0, some 8192⟩]) fuel).ending = .done ∧
    (reader rangeReadTask 2 (fun _ => [⟨0, some 8192⟩]) fuel).passes = 2 := by
  refine positive_iterations_done tenMegTask rangeReadTask _ _
    (fun w => w.bufMin = 1048576 ∧ w.bufMax = 1048576 ∧ w.minFileSize = 10485760 ∧
      w.maxFileSize = 10485760 ∧ w.bufLen = 1048576 ∧ w.bufCap = 1048576 ∧
      w.bytesWritten < 2 ^ 64)
    (by decide) ?_ (fun _ => by decide) 2 fuel (by decide) (by decide) hfuel
  rintro k w ⟨h1, h2, h3, h4, h5, h6, h7⟩
  have hout := writeOne_all_ok w (allOk 0 1048576) 1048576 10485760
      (by rw [h1, h2]; rfl) (by rw [h3, h4]; rfl) (by decide) (by decide)
      (by rw [h5]; decide) (by rw [h6]; decide) rfl rfl (fun _ => rfl) h7
  have r1 : (writeOne w (allOk 0 1048576)).status = .returned := by rw [hout]
  have r7 : (writeOne w (allOk 0 1048576)).wt.bytesWritten < 2 ^ 64 := by
    rw [hout]
    exact Nat.mod_lt _ (by decide)
  have hc := writeOne_config w (allOk 0 1048576)
  refine ⟨r1, ?_, ?_, ?_, ?_, ?_, ?_, r7⟩
  · rw [hc]; exact h1
  · rw [hc]; exact h2
  · rw [hc]; exact h3
  · rw [hc]; exact h4
  · rw [hc]; exact h5
  · rw [hc]; exact h6

end Mstress
